import Mathlib

/-!
Verification development for the h5ai downloader (`dl.py`).

The Python source is shallowly embedded: strings are Lean `String`s
(manipulated through their underlying `List Char` so that every
definition is structurally recursive and kernel-evaluable), the
filesystem, the pickle databases and the printed output are explicit
state, and the network / `wget` transfer are injected capabilities
(`String → Option String` for a GET that may fail, `String → Bool`
for a transfer that may fail).  Exceptions are modelled with
`Except` / `Option`.

The file is organised as: all definitions first, then the theorems.
-/

namespace H5ai

/-! ## Python string builtins, modelled over `List Char`

`str.replace` replaces every non-overlapping occurrence left to right;
`str.startswith` / `str.endswith` are prefix / suffix tests.  They are
re-implemented structurally so that `decide` / `rfl` can evaluate them.
-/

/-- One scan step of Python `str.replace`: the `Nat` argument counts
characters of an already-matched pattern occurrence that still have to
be skipped (the replacement has already been emitted). -/
def replaceAllAux (pat rep : List Char) : List Char → Nat → List Char
  | [], _ => []
  | _ :: rest, Nat.succ k => replaceAllAux pat rep rest k
  | c :: rest, 0 =>
    if pat ≠ [] ∧ pat.isPrefixOf (c :: rest) then
      rep ++ replaceAllAux pat rep rest (pat.length - 1)
    else
      c :: replaceAllAux pat rep rest 0

/-- Python `s.replace(pat, rep)` (for a non-empty pattern; the source
never calls `replace` with an empty pattern). -/
def replaceAll (pat rep s : List Char) : List Char :=
  replaceAllAux pat rep s 0

/-- Python `s.replace(old, new)` on `String`. -/
def pyReplace (s old new : String) : String :=
  ⟨replaceAll old.data new.data s.data⟩

/-- Python `s.startswith(pre)`. -/
def pyStartsWith (s pre : String) : Bool :=
  pre.data.isPrefixOf s.data

/-- Python `s.endswith(suf)`. -/
def pyEndsWith (s suf : String) : Bool :=
  suf.data.isSuffixOf s.data

/-- Does `pat` occur as a contiguous sublist of `s`?  (Python
`pat in s` on strings; used to state when `str.replace` is the
identity.) -/
def occursIn (pat : List Char) : List Char → Bool
  | [] => pat.isEmpty
  | c :: rest => pat.isPrefixOf (c :: rest) || occursIn pat rest

/-- Python `s.split(sep)` for a single-character separator: keeps empty
segments, never returns an empty list. -/
def splitOnChar (sep : Char) : List Char → List (List Char)
  | [] => [[]]
  | c :: rest =>
    match splitOnChar sep rest with
    | [] => if c = sep then [[], []] else [[c]]
    | cur :: parts =>
      if c = sep then [] :: cur :: parts else (c :: cur) :: parts

/-- Python `s.split(' ')` on `String`. -/
def pySplit (s : String) (sep : Char) : List String :=
  (splitOnChar sep s.data).map (fun cs => ⟨cs⟩)

/-- Python `s.splitlines()` restricted to `'\n'` line breaks (the only
break the source's list files use): like splitting on `'\n'`, except
that a trailing newline produces no empty final line and the empty
string has no lines. -/
def splitlines (s : String) : List String :=
  if s.data = [] then []
  else
    let parts := splitOnChar '\n' s.data
    let parts := if pyEndsWith s "\n" then parts.dropLast else parts
    parts.map (fun cs => ⟨cs⟩)

/-- The numeric value of a decimal digit, `none` for a non-digit. -/
def digitVal (c : Char) : Option Nat :=
  if '0' ≤ c ∧ c ≤ '9' then some (c.toNat - 48) else none

/-- Decimal digit-string to `Nat` (`none` when empty or not all digits). -/
def digitsToNat : List Char → Option Nat
  | [] => none
  | ds =>
    ds.foldl
      (fun acc c => acc.bind (fun n => (digitVal c).map (fun d => 10 * n + d)))
      (some 0)

/-- Python `int(s)` for plain decimal literals with an optional sign
(the only shapes the source's list files are specced to contain);
`none` models the `ValueError` Python raises on anything else. -/
def pyToInt (s : String) : Option Int :=
  match s.data with
  | '-' :: ds => (digitsToNat ds).map (fun n => -(n : Int))
  | '+' :: ds => (digitsToNat ds).map (fun n => (n : Int))
  | ds => (digitsToNat ds).map (fun n => (n : Int))

/-- The numeric value of a hexadecimal digit, `none` for a non-digit. -/
def hexVal (c : Char) : Option Nat :=
  if '0' ≤ c ∧ c ≤ '9' then some (c.toNat - 48)
  else if 'a' ≤ c ∧ c ≤ 'f' then some (c.toNat - 87)
  else if 'A' ≤ c ∧ c ≤ 'F' then some (c.toNat - 55)
  else none

/-- After a `%`: the decoded byte and the remaining input when the
next two characters are hex digits, `none` otherwise. -/
def decodeHexPair : List Char → Option (Char × List Char)
  | a :: b :: rest2 =>
    match hexVal a, hexVal b with
    | some ha, some hb => some (Char.ofNat (16 * ha + hb), rest2)
    | _, _ => none
  | _ => none

/-- The scan of `urllib.parse.unquote`, with explicit fuel (every step
consumes at least one character, so `s.length` fuel always suffices;
with fuel `0` the remaining input is returned unchanged). -/
def url_decodeAux : Nat → List Char → List Char
  | 0, s => s
  | _ + 1, [] => []
  | fuel + 1, c :: rest =>
    if c = '%' then
      match decodeHexPair rest with
      | some (ch, rest2) => ch :: url_decodeAux fuel rest2
      | none => '%' :: url_decodeAux fuel rest
    else c :: url_decodeAux fuel rest

/-- `urllib.parse.unquote`, modelled at the byte level for single-byte
(ASCII) escapes: `%XY` with two hex digits becomes the character with
code `0xXY`, any other `%` is kept literally.  (Python additionally
reassembles consecutive escaped bytes as UTF-8; the source's claims
only involve single-byte escapes.) -/
def url_decodeChars (s : List Char) : List Char :=
  url_decodeAux s.length s

/-- `url_decode(url)` from `dl.py` (`urllib.parse.unquote`). -/
def url_decode (url : String) : String :=
  ⟨url_decodeChars url.data⟩

/-- `url_to_file_name(url)` from `dl.py`:
`url.replace('http://', '').replace('https://', '').replace('/', '_')`. -/
def url_to_file_name (url : String) : String :=
  pyReplace (pyReplace (pyReplace url "http://" "") "https://" "") "/" "_"

/-- `download_url_to_path(target_domain, url)` from `dl.py`:
`url.replace(target_domain, '.')` followed by `url_decode`. -/
def download_url_to_path (target_domain url : String) : String :=
  url_decode (pyReplace url target_domain ".")

/-- Python `os.path.dirname`: everything before the last `/`, the
empty string when there is no `/`. -/
def dirname (p : String) : String :=
  ⟨((p.data.reverse.dropWhile (fun c => c ≠ '/')).drop 1).reverse⟩

/-! ## Association-list lookup (the on-disk pickle stores) -/

/-- First-match lookup in an association list, used to model reading
the newest on-disk snapshot stored under a file name. -/
def lookup {β : Type} (k : String) : List (String × β) → Option β
  | [] => none
  | (k', v) :: rest => if k' = k then some v else lookup k rest

/-! ## Response Cache (`get_source_using_curl`)

The cache directory is modelled as an association list from cache file
names to the stored (pickled) bytes; the network GET is the injected
capability `net : String → Option String` (`none` = the `curl`
subprocess raised, which the source converts to the empty string).
The result records the returned bytes, the updated cache directory and
how many network calls were performed. -/

/-- The cache file name `url_to_file_name(url) + '.pkl'` used by
`get_source_using_curl` (the `url_cache` directory is implicit in the
association list that models it). -/
def cacheKey (url : String) : String :=
  url_to_file_name url ++ ".pkl"

structure FetchResult where
  html : String
  cache : List (String × String)
  netCalls : Nat
  deriving DecidableEq, Repr

/-- `get_source_using_curl(url)` from `dl.py`: return the cached bytes
when the cache file exists (no network access), otherwise GET the URL
(an exception becomes the empty string), store the result under the
cache key, and return it. -/
def get_source_using_curl (net : String → Option String)
    (cache : List (String × String)) (url : String) : FetchResult :=
  match lookup (cacheKey url) cache with
  | some html => ⟨html, cache, 0⟩
  | none =>
    let html := (net url).getD ""
    ⟨html, (cacheKey url, html) :: cache, 1⟩

/-! ## Completion Ledger and Downloader state

`download_completed` is a process-global Python list; the pickle files
under `./downloaded_db` are an association list from ledger file names
to the pickled URL list; the filesystem is the set (list) of existing
paths; everything printed / executed is logged as events. -/

inductive Event where
  /-- `print('Skipping: {path}')` -/
  | skipping (path : String)
  /-- `print('Downloading: {path}')` -/
  | downloading (path : String)
  /-- `subprocess.call(['wget', url, '-O', path, ...])`, with the
  transfer's success recorded (the source ignores it) -/
  | wget (url : String) (path : String) (ok : Bool)
  deriving DecidableEq, Repr

structure DLState where
  /-- existing filesystem paths (files and directories) -/
  fs : List String
  /-- the global `download_completed` list -/
  ledger : List String
  /-- the `./downloaded_db` directory: ledger file name ↦ pickled list -/
  db : List (String × List String)
  /-- printed / executed events, oldest first -/
  events : List Event
  deriving DecidableEq, Repr

/-- The ledger file name `url_to_file_name(major_url) + '.pkl'` under
`./downloaded_db`. -/
def dbKey (major_url : String) : String :=
  url_to_file_name major_url ++ ".pkl"

/-- `load_downloaded_urls(major_url)` from `dl.py`: if the ledger file
for `major_url` exists, append (`+=`) its pickled list to the global
`download_completed`. -/
def load_downloaded_urls (major_url : String) (s : DLState) : DLState :=
  match lookup (dbKey major_url) s.db with
  | some saved => { s with ledger := s.ledger ++ saved }
  | none => s

/-- `download_complete(major_url, url)` from `dl.py`: append `url` to
the global `download_completed` and pickle the whole global list to
`major_url`'s ledger file, overwriting the previous snapshot. -/
def download_complete (major_url url : String) (s : DLState) : DLState :=
  let ledger := s.ledger ++ [url]
  { s with
    ledger := ledger
    db := (dbKey major_url, ledger) :: s.db }

/-- The body of the `for url in urls` loop of `download_urls`:
derive the local path, create its parent directory if missing, skip
when the path exists and the URL is in `download_completed`, otherwise
print, run `wget` (whose exit status the source ignores; with `-O` the
output file is created even when the transfer fails) and call
`download_complete`. -/
def download_step (wget : String → Bool) (target_domain major_url url : String)
    (s : DLState) : DLState :=
  let path := download_url_to_path target_domain url
  let dir := dirname path
  let s := if dir ∈ s.fs then s else { s with fs := dir :: s.fs }
  if path ∈ s.fs ∧ url ∈ s.ledger then
    { s with events := s.events ++ [Event.skipping path] }
  else
    let ok := wget url
    let s := { s with
      events := s.events ++ [Event.downloading path, Event.wget url path ok]
      fs := path :: s.fs }
    download_complete major_url url s

/-- `download_urls(target_domain, major_url, urls)` from `dl.py`. -/
def download_urls (wget : String → Bool) (target_domain major_url : String)
    (urls : List String) (s : DLState) : DLState :=
  urls.foldl (fun s url => download_step wget target_domain major_url url s) s

/-- Two downloader states that agree on everything the control flow of
`dl.py` ever reads back (filesystem, global ledger, pickle files) —
they may differ in what was printed / executed. -/
def SameCore (s t : DLState) : Prop :=
  s.fs = t.fs ∧ s.ledger = t.ledger ∧ s.db = t.db

/-! ## Listing Crawler (`crawl_h5ai`)

A parsed listing page is a list of anchors, each with an optional
`href` (`link.get('href')` is `None` for an `<a>` without the
attribute); a site maps each URL to the page its HTML parses to
(`BeautifulSoup(get_source_using_curl(url))` composed — the fetch is
the injected capability here).  A raised Python exception is
`Except.error ()`. -/

structure Anchor where
  href : Option String
  deriving DecidableEq, Repr

abbrev Page := List Anchor

abbrev Site := String → Page

/-- The `for link in soup.find_all('a')` loop body of `inner_crawl`,
parameterised by the recursive call `rec` used for sub-listings:
an anchor without `href` raises (`None.startswith` is an
`AttributeError`), an href starting with `..` is skipped, an href
ending in `/` is recursed into (its results are appended before the
rest of the page is processed), any other href is appended to the
downloadable list. -/
def crawl_page (td : String) (rec : String → Except Unit (List String)) :
    List Anchor → Except Unit (List String)
  | [] => Except.ok []
  | a :: rest =>
    match a.href with
    | none => Except.error ()
    | some href =>
      if pyStartsWith href ".." then crawl_page td rec rest
      else if pyEndsWith href "/" then
        match rec (td ++ href) with
        | Except.error e => Except.error e
        | Except.ok sub =>
          match crawl_page td rec rest with
          | Except.error e => Except.error e
          | Except.ok tail => Except.ok (sub ++ tail)
      else
        match crawl_page td rec rest with
        | Except.error e => Except.error e
        | Except.ok tail => Except.ok ((td ++ href) :: tail)

/-- `inner_crawl` by remaining fuel: fuel `0` is the
`recursion > max_depth` guard (return, collecting nothing), fuel
`f + 1` fetches the page and processes its anchors, recursing with
fuel `f`. -/
def crawlFuel (site : Site) (td : String) : Nat → String → Except Unit (List String)
  | 0, _ => Except.ok []
  | fuel + 1, url => crawl_page td (crawlFuel site td fuel) (site url)

/-- `inner_crawl(target_domain, url, recursion, max_depth)` from
`dl.py`: a call at depth `recursion` has `max_depth + 1 - recursion`
fuel (zero exactly when `recursion > max_depth`). -/
def inner_crawl (site : Site) (td url : String) (recursion max_depth : Nat) :
    Except Unit (List String) :=
  crawlFuel site td (max_depth + 1 - recursion) url

/-- `crawl_h5ai(target_domain, url, recursion, max_depth)` from
`dl.py`: run `inner_crawl` and return the collected downloadable
URLs (an uncaught exception propagates). -/
def crawl_h5ai (site : Site) (td url : String) (recursion max_depth : Nat) :
    Except Unit (List String) :=
  inner_crawl site td url recursion max_depth

/-- Leaves discovered from a listing page at a given recursion depth:
`LeafReach site td url u n` holds when, starting at the page `url`,
following `n` sub-listing anchors (hrefs ending in `/`, not starting
with `..`) reaches a page with a downloadable anchor for `u` (href not
starting with `..`, not ending in `/`, with `u` the target domain
concatenated with the href). -/
inductive LeafReach (site : Site) (td : String) : String → String → Nat → Prop where
  | here {url : String} (a : Anchor) (href : String) :
      a ∈ site url → a.href = some href →
      pyStartsWith href ".." = false → pyEndsWith href "/" = false →
      LeafReach site td url (td ++ href) 0
  | there {url u : String} {n : Nat} (a : Anchor) (href : String) :
      a ∈ site url → a.href = some href →
      pyStartsWith href ".." = false → pyEndsWith href "/" = true →
      LeafReach site td (td ++ href) u n →
      LeafReach site td url u (n + 1)

/-- Keep an anchor unless its href starts with `..` (anchors without
an href are kept: the crawl raises on them either way). -/
def keepAnchor (a : Anchor) : Bool :=
  match a.href with
  | some h => !(pyStartsWith h "..")
  | none => true

/-- Remove every anchor whose href starts with `..` from every page of
a site. -/
def stripParentAnchors (site : Site) : Site := fun u =>
  (site u).filter keepAnchor

/-- The example listing site of the spec's test scenario:
`http://host/files/` lists a parent link, the sub-listing `sub/` and
the leaves `a.zip`, `b.zip`; the sub-listing lists a parent link and
the leaf `c.zip`.  (h5ai hrefs are absolute paths, which is what the
source's `target_domain + href` concatenation assumes.) -/
def exampleSite : Site := fun u =>
  if u = "http://host/files/" then
    [⟨some ".."⟩, ⟨some "/files/sub/"⟩, ⟨some "/files/a.zip"⟩, ⟨some "/files/b.zip"⟩]
  else if u = "http://host/files/sub/" then
    [⟨some ".."⟩, ⟨some "/files/sub/c.zip"⟩]
  else []

/-! ## Batch Orchestrator list-file parsing (`get_urls_from_file`)

Reading the file is the collaborator; the model takes the file's
content.  `int(...)` raising on a malformed depth is `none`. -/

/-- The parsing core of `get_urls_from_file(path, default_depth)` from
`dl.py`, applied to the file's content: split into lines, split each
line on single spaces; a line with a second field uses `int(field)` as
the depth, otherwise the caller-supplied default is used. -/
def get_urls_from_file (content : String) (default_depth : Int) :
    Option (List (String × Int)) :=
  (splitlines content).mapM (fun line =>
    match pySplit line ' ' with
    | [] => none
    | [u] => some (u, default_depth)
    | u :: d :: _ => (pyToInt d).map (fun k => (u, k)))

/-! # Theorems -/

/-! ## Lookup helper lemmas -/

theorem lookup_cons_self {β : Type} (k : String) (v : β) (t : List (String × β)) :
    lookup k ((k, v) :: t) = some v := by
  simp [lookup]

theorem lookup_cons_ne {β : Type} (k k' : String) (v : β) (t : List (String × β))
    (h : k' ≠ k) : lookup k' ((k, v) :: t) = lookup k' t := by
  simp [lookup, Ne.symm h]

/-! ## Python `str.replace` lemmas -/

theorem isPrefixOf_append_self (pat s : List Char) :
    pat.isPrefixOf (pat ++ s) = true := by
  simp [List.isPrefixOf_iff_prefix]

theorem replaceAllAux_skip (pat rep : List Char) :
    ∀ t s : List Char, replaceAllAux pat rep (t ++ s) t.length = replaceAllAux pat rep s 0 := by
  intro t
  induction t with
  | nil => intro s; rfl
  | cons c t ih => intro s; simp [replaceAllAux, ih s]

/-- `str.replace` on a string that starts with the pattern replaces
that occurrence and goes on after it. -/
theorem replaceAll_append_pat (pat rep s : List Char) (hp : pat ≠ []) :
    replaceAll pat rep (pat ++ s) = rep ++ replaceAll pat rep s := by
  match pat, hp with
  | c :: pt, _ =>
    show replaceAllAux (c :: pt) rep (c :: (pt ++ s)) 0 = rep ++ replaceAllAux (c :: pt) rep s 0
    rw [replaceAllAux]
    rw [if_pos ⟨by simp, by simp [isPrefixOf_append_self (c :: pt) s]⟩]
    simp [replaceAllAux_skip (c :: pt) rep pt s]

/-- `str.replace` is the identity on a string the pattern does not
occur in. -/
theorem replaceAll_of_not_occursIn (pat rep : List Char) :
    ∀ s : List Char, occursIn pat s = false → replaceAll pat rep s = s := by
  intro s
  induction s with
  | nil => intro _; rfl
  | cons c rest ih =>
    intro h
    rw [occursIn, Bool.or_eq_false_iff] at h
    show replaceAllAux pat rep (c :: rest) 0 = c :: rest
    rw [replaceAllAux, if_neg (by simp [h.1])]
    exact congrArg (List.cons c) (ih h.2)

/-! ## `urllib.parse.unquote` lemmas -/

theorem url_decodeAux_of_no_percent :
    ∀ (fuel : Nat) (x : List Char), (∀ c ∈ x, c ≠ '%') → url_decodeAux fuel x = x := by
  intro fuel
  induction fuel with
  | zero => intro x _; rfl
  | succ fuel ih =>
    intro x hx
    match x with
    | [] => rfl
    | c :: rest =>
      have hc : c ≠ '%' := hx c (by simp)
      rw [url_decodeAux, if_neg hc, ih rest (fun d hd => hx d (by simp [hd]))]

theorem url_decodeChars_cons_of_ne (c : Char) (x : List Char) (hc : c ≠ '%') :
    url_decodeChars (c :: x) = c :: url_decodeChars x := by
  show url_decodeAux (x.length + 1) (c :: x) = c :: url_decodeAux x.length x
  rw [url_decodeAux, if_neg hc]

/-! ## Claim C7: cache idempotence -/

/-- Claim C7: for every URL `u` with no existing cache entry, the first
fetch performs exactly one network GET and stores the raw result (or
the empty byte sequence when the GET fails) under `u`'s normalized key,
and a second fetch of `u` (under any network behaviour `net2`,
including a failing one) performs zero network calls and returns bytes
identical to those returned by the first call. -/
theorem fetch_cache_idempotent (net net2 : String → Option String)
    (cache : List (String × String)) (u : String)
    (h : lookup (cacheKey u) cache = none) :
    (get_source_using_curl net cache u).netCalls = 1 ∧
    (get_source_using_curl net cache u).html = (net u).getD "" ∧
    lookup (cacheKey u) (get_source_using_curl net cache u).cache =
      some ((net u).getD "") ∧
    (get_source_using_curl net2 (get_source_using_curl net cache u).cache u).netCalls = 0 ∧
    (get_source_using_curl net2 (get_source_using_curl net cache u).cache u).html =
      (get_source_using_curl net cache u).html := by
  simp [get_source_using_curl, h, lookup_cons_self]

/-- Claim C7, witness: a concrete run through the cache at the URL
`http://host/files/`, first with a succeeding network and then with a
failing one. -/
theorem fetch_cache_idempotent_witness :
    (get_source_using_curl (fun _ => some "PAGE") [] "http://host/files/").netCalls = 1 ∧
    (get_source_using_curl (fun _ => some "PAGE") [] "http://host/files/").html =
      ((fun _ => some "PAGE") "http://host/files/").getD "" ∧
    lookup (cacheKey "http://host/files/")
      (get_source_using_curl (fun _ => some "PAGE") [] "http://host/files/").cache =
      some (((fun _ => some "PAGE") "http://host/files/").getD "") ∧
    (get_source_using_curl (fun _ => none)
      (get_source_using_curl (fun _ => some "PAGE") [] "http://host/files/").cache
      "http://host/files/").netCalls = 0 ∧
    (get_source_using_curl (fun _ => none)
      (get_source_using_curl (fun _ => some "PAGE") [] "http://host/files/").cache
      "http://host/files/").html =
      (get_source_using_curl (fun _ => some "PAGE") [] "http://host/files/").html :=
  fetch_cache_idempotent (fun _ => some "PAGE") (fun _ => none) [] "http://host/files/"
    (by decide)

/-! ## Downloader helper lemmas -/

theorem download_step_ledger_mono (w : String → Bool) (td mj u x : String) (s : DLState)
    (hx : x ∈ s.ledger) : x ∈ (download_step w td mj u s).ledger := by
  unfold download_step download_complete
  dsimp only
  split <;> split <;> simp_all

theorem download_step_self_mem_ledger (w : String → Bool) (td mj u : String) (s : DLState) :
    u ∈ (download_step w td mj u s).ledger := by
  unfold download_step download_complete
  dsimp only
  split <;> split <;> simp_all

theorem download_urls_ledger_mono (w : String → Bool) (td mj : String) (urls : List String) :
    ∀ (s : DLState) (x : String), x ∈ s.ledger → x ∈ (download_urls w td mj urls s).ledger := by
  induction urls with
  | nil => intro s x hx; exact hx
  | cons v rest ih =>
    intro s x hx
    exact ih (download_step w td mj v s) x (download_step_ledger_mono w td mj v x s hx)

theorem download_urls_mem_ledger (w : String → Bool) (td mj : String) (urls : List String) :
    ∀ (s : DLState) (u : String), u ∈ urls → u ∈ (download_urls w td mj urls s).ledger := by
  induction urls with
  | nil => intro s u hu; cases hu
  | cons v rest ih =>
    intro s u hu
    rcases List.mem_cons.mp hu with rfl | hu2
    · exact download_urls_ledger_mono w td mj rest (download_step w td mj u s) u
        (download_step_self_mem_ledger w td mj u s)
    · exact ih (download_step w td mj v s) u hu2

theorem download_step_core_independent (w w' : String → Bool) (td mj u : String)
    (s t : DLState) (h : SameCore s t) :
    SameCore (download_step w td mj u s) (download_step w' td mj u t) := by
  obtain ⟨hfs, hld, hdb⟩ := h
  obtain ⟨sfs, sld, sdb, sev⟩ := s
  obtain ⟨tfs, tld, tdb, tev⟩ := t
  dsimp only at hfs hld hdb
  subst hfs
  subst hld
  subst hdb
  unfold download_step download_complete SameCore
  dsimp only
  by_cases h1 : dirname (download_url_to_path td u) ∈ sfs
  · by_cases h2 : download_url_to_path td u ∈ sfs ∧ u ∈ sld
    · simp [h1, h2]
    · simp [h1, h2]
  · by_cases h2 : (download_url_to_path td u = dirname (download_url_to_path td u) ∨
        download_url_to_path td u ∈ sfs) ∧ u ∈ sld
    · simp [h1, h2]
    · simp [h1, h2]

/-- The exact state produced by a skipped iteration of the download
loop (the skip condition holds at entry). -/
theorem download_step_skip_eq (w : String → Bool) (td mj u : String) (s : DLState)
    (h2 : download_url_to_path td u ∈ s.fs ∧ u ∈ s.ledger) :
    download_step w td mj u s =
      { s with
        fs := if dirname (download_url_to_path td u) ∈ s.fs then s.fs
              else dirname (download_url_to_path td u) :: s.fs
        events := s.events ++ [Event.skipping (download_url_to_path td u)] } := by
  unfold download_step
  dsimp only
  by_cases h1 : dirname (download_url_to_path td u) ∈ s.fs
  · simp [h1, h2.1, h2.2]
  · simp [h1, List.mem_cons_of_mem _ h2.1, h2.2]

/-- The exact state produced by a downloading iteration of the
download loop (the skip condition fails at entry; the path is no
directory name, so creating the parent directory cannot satisfy the
existence check). -/
theorem download_step_dl_eq (w : String → Bool) (td mj u : String) (s : DLState)
    (h2 : ¬(download_url_to_path td u ∈ s.fs ∧ u ∈ s.ledger))
    (hpd : download_url_to_path td u ≠ dirname (download_url_to_path td u)) :
    download_step w td mj u s =
      { fs := download_url_to_path td u ::
          (if dirname (download_url_to_path td u) ∈ s.fs then s.fs
           else dirname (download_url_to_path td u) :: s.fs)
        ledger := s.ledger ++ [u]
        db := (dbKey mj, s.ledger ++ [u]) :: s.db
        events := s.events ++ [Event.downloading (download_url_to_path td u),
          Event.wget u (download_url_to_path td u) (w u)] } := by
  unfold download_step download_complete
  dsimp only
  by_cases h1 : dirname (download_url_to_path td u) ∈ s.fs
  · simp [h1, h2]
  · have hnc : ¬(download_url_to_path td u ∈
        dirname (download_url_to_path td u) :: s.fs ∧ u ∈ s.ledger) :=
      fun hc => h2 ⟨(List.mem_cons.mp hc.1).resolve_left hpd, hc.2⟩
    simp [h1, hnc]
    exact fun hor hu => h2 ⟨hor.resolve_left hpd, hu⟩

theorem download_urls_core_independent (w w' : String → Bool) (td mj : String)
    (urls : List String) :
    ∀ s t : DLState, SameCore s t →
      SameCore (download_urls w td mj urls s) (download_urls w' td mj urls t) := by
  induction urls with
  | nil => intro s t h; exact h
  | cons v rest ih =>
    intro s t h
    exact ih (download_step w td mj v s) (download_step w' td mj v t)
      (download_step_core_independent w w' td mj v s t h)

/-! ## Claim C1: ledger updates and failed transfers -/

/-- Claim C1, counterexample: `download_urls` uses `subprocess.call`
and ignores the transfer's exit status, so `download_complete` runs
even when the transfer fails.  With a transfer capability that always
fails, downloading the single URL `http://h/a.zip` into an empty state
still records the URL in the global ledger and persists it to the
root's ledger file (the logged `wget` event shows the failed
transfer), and a second run then skips the URL instead of retrying
it. -/
theorem download_failed_transfer_still_recorded :
    (download_urls (fun _ => false) "http://h" "http://h" ["http://h/a.zip"]
      ⟨[], [], [], []⟩).ledger = ["http://h/a.zip"] ∧
    (download_urls (fun _ => false) "http://h" "http://h" ["http://h/a.zip"]
      ⟨[], [], [], []⟩).events =
      [Event.downloading "./a.zip", Event.wget "http://h/a.zip" "./a.zip" false] ∧
    lookup (dbKey "http://h")
      (download_urls (fun _ => false) "http://h" "http://h" ["http://h/a.zip"]
        ⟨[], [], [], []⟩).db = some ["http://h/a.zip"] ∧
    (download_urls (fun _ => false) "http://h" "http://h" ["http://h/a.zip"]
      (download_urls (fun _ => false) "http://h" "http://h" ["http://h/a.zip"]
        ⟨[], [], [], []⟩)).events =
      [Event.downloading "./a.zip", Event.wget "http://h/a.zip" "./a.zip" false,
        Event.skipping "./a.zip"] := by
  refine ⟨by rfl, by rfl, by rfl, by rfl⟩

/-- Claim C1, amended: `download_complete` is called after every
attempted transfer whether or not it succeeded — every URL of the
batch ends up recorded in the Completion Ledger (failed transfers
included, so a failed URL is not retried on the next run while its
output file exists), the transfer's exit status never influences the
filesystem / ledger / persisted state (only the event log), and
processing always continues through the whole batch. -/
theorem download_urls_records_every_url (w w' : String → Bool) (td major : String)
    (urls : List String) (s : DLState) :
    (∀ u, u ∈ urls → u ∈ (download_urls w td major urls s).ledger) ∧
    SameCore (download_urls w td major urls s) (download_urls w' td major urls s) :=
  ⟨fun u hu => download_urls_mem_ledger w td major urls s u hu,
    download_urls_core_independent w w' td major urls s s ⟨rfl, rfl, rfl⟩⟩

/-- Claim C1, witness: the amended statement at a concrete
always-failing transfer, a one-URL batch and the empty state. -/
theorem download_urls_records_every_url_witness :
    "http://h/a.zip" ∈ (download_urls (fun _ => false) "http://h" "http://h"
      ["http://h/a.zip"] ⟨[], [], [], []⟩).ledger :=
  (download_urls_records_every_url (fun _ => false) (fun _ => true) "http://h" "http://h"
    ["http://h/a.zip"] ⟨[], [], [], []⟩).1 "http://h/a.zip" (by decide)

/-! ## Claim C2: ledger scoping per crawl root -/

/-- Claim C2, counterexample: `download_completed` is one process-global
list.  After downloading `http://a/x.zip` for root `http://a` and then
`http://b/y.zip` for root `http://b` (exactly the orchestrator's
multi-item flow: `load_downloaded_urls` then `download_urls` per
root), root `http://b`'s persisted ledger file contains
`http://a/x.zip` — a URL downloaded for a different root, under a
different ledger file name. -/
theorem ledger_cross_root_contamination :
    lookup (dbKey "http://b")
      (download_urls (fun _ => true) "http://b" "http://b" ["http://b/y.zip"]
        (load_downloaded_urls "http://b"
          (download_urls (fun _ => true) "http://a" "http://a" ["http://a/x.zip"]
            ⟨[], [], [], []⟩))).db =
      some ["http://a/x.zip", "http://b/y.zip"] ∧
    dbKey "http://a" ≠ dbKey "http://b" ∧
    ("http://a/x.zip" : String) ≠ "http://b/y.zip" := by
  refine ⟨by rfl, by decide, by decide⟩

/-- Claim C2, amended: `download_complete(rootKey, url)` appends `url`
to the single process-global completion list and re-persists that
entire global list — which may already contain URLs recorded for other
roots — as `rootKey`'s blob, overwriting the previous snapshot; other
roots' blobs are not rewritten by the call itself, but a root's blob
is not guaranteed to contain only its own URLs. -/
theorem download_complete_persists_global_list (s : DLState) (A B u v : String)
    (hAB : dbKey A ≠ dbKey B) :
    (download_complete A u s).ledger = s.ledger ++ [u] ∧
    lookup (dbKey A) (download_complete A u s).db = some (s.ledger ++ [u]) ∧
    (download_complete B v (download_complete A u s)).ledger = s.ledger ++ [u, v] ∧
    lookup (dbKey B) (download_complete B v (download_complete A u s)).db =
      some (s.ledger ++ [u, v]) ∧
    lookup (dbKey A) (download_complete B v (download_complete A u s)).db =
      some (s.ledger ++ [u]) := by
  unfold download_complete
  dsimp only
  refine ⟨rfl, lookup_cons_self _ _ _, by simp, ?_, ?_⟩
  · rw [show s.ledger ++ [u] ++ [v] = s.ledger ++ [u, v] by simp]
    exact lookup_cons_self _ _ _
  · rw [lookup_cons_ne _ _ _ _ hAB]
    exact lookup_cons_self _ _ _

/-- Claim C2, witness: the amended statement at the two concrete roots
`http://a` and `http://b` and the empty state — root `http://a`'s blob
keeps only its own URL because the two ledger file names differ. -/
theorem download_complete_persists_global_list_witness :
    lookup (dbKey "http://a")
      (download_complete "http://b" "v.zip"
        (download_complete "http://a" "u.zip" ⟨[], [], [], []⟩)).db =
      some (([] : List String) ++ ["u.zip"]) :=
  (download_complete_persists_global_list ⟨[], [], [], []⟩ "http://a" "http://b"
    "u.zip" "v.zip" (by decide)).2.2.2.2

/-! ## Claim C3: skip exactly when present on disk and in the ledger -/

/-- Claim C3: in `download_urls`, a URL is skipped (only a
`Skipping` line is printed and no transfer is attempted) if and only
if its LocalPath exists on disk AND the URL is in the in-memory
completion list (the loaded ledger plus the URLs completed earlier in
the run); a URL whose file is missing is (re)downloaded even when the
ledger records it; and after a non-skipped run of a URL, running it
again skips it.  (The technical hypothesis says the path differs from
its parent directory, true of every real path.) -/
theorem download_skip_iff_present_and_recorded (w : String → Bool) (td major u : String)
    (s : DLState)
    (hpd : download_url_to_path td u ≠ dirname (download_url_to_path td u)) :
    ((download_step w td major u s).events =
        s.events ++ [Event.skipping (download_url_to_path td u)] ↔
      download_url_to_path td u ∈ s.fs ∧ u ∈ s.ledger) ∧
    (download_url_to_path td u ∉ s.fs →
      (download_step w td major u s).events =
        s.events ++ [Event.downloading (download_url_to_path td u),
          Event.wget u (download_url_to_path td u) (w u)]) ∧
    (¬(download_url_to_path td u ∈ s.fs ∧ u ∈ s.ledger) →
      (download_step w td major u (download_step w td major u s)).events =
        (download_step w td major u s).events ++
          [Event.skipping (download_url_to_path td u)]) := by
  refine ⟨⟨?_, ?_⟩, ?_, ?_⟩
  · intro heq
    by_contra h2
    rw [download_step_dl_eq w td major u s h2 hpd] at heq
    simp at heq
  · intro h2
    rw [download_step_skip_eq w td major u s h2]
  · intro hnf
    exact congrArg DLState.events
      (download_step_dl_eq w td major u s (fun hc => hnf hc.1) hpd)
  · intro h2
    have h2' : download_url_to_path td u ∈ (download_step w td major u s).fs ∧
        u ∈ (download_step w td major u s).ledger := by
      rw [download_step_dl_eq w td major u s h2 hpd]
      exact ⟨List.mem_cons_self _ _, List.mem_append_right _ (List.mem_cons_self _ _)⟩
    rw [download_step_skip_eq w td major u (download_step w td major u s) h2']

/-- Claim C3, witness: the characterization at a concrete state — the
empty state downloads `http://h/a.zip`; the run's final state has the
file and the ledger entry, so a second run skips. -/
theorem download_skip_iff_present_and_recorded_witness :
    ((download_step (fun _ => true) "http://h" "http://h" "http://h/a.zip"
        ⟨[], [], [], []⟩).events =
      [Event.downloading "./a.zip", Event.wget "http://h/a.zip" "./a.zip" true]) :=
  (download_skip_iff_present_and_recorded (fun _ => true) "http://h" "http://h"
    "http://h/a.zip" ⟨[], [], [], []⟩ (by decide)).2.1 (by decide)

/-! ## Crawler helper lemmas -/

/-- Membership in the result of one page's anchor loop, given a
characterization `P` of the recursive call's results. -/
theorem crawl_page_mem (td : String) (rec : String → Except Unit (List String))
    (P : String → String → Prop)
    (hrec : ∀ v l2, rec v = Except.ok l2 → ∀ u, u ∈ l2 ↔ P v u) :
    ∀ (anchors : List Anchor) (l : List String),
      crawl_page td rec anchors = Except.ok l →
      ∀ u, u ∈ l ↔ ∃ a ∈ anchors, ∃ href, a.href = some href ∧
        pyStartsWith href ".." = false ∧
        ((pyEndsWith href "/" = true ∧ P (td ++ href) u) ∨
         (pyEndsWith href "/" = false ∧ u = td ++ href)) := by
  intro anchors
  induction anchors with
  | nil =>
    intro l hl u
    cases hl
    simp
  | cons a rest ih =>
    intro l hl u
    obtain ⟨ho⟩ := a
    cases ho with
    | none =>
      simp only [crawl_page] at hl
      cases hl
    | some href =>
      simp only [crawl_page] at hl
      have ha : (Anchor.mk (some href)).href = some href := rfl
      by_cases hs : pyStartsWith href ".." = true
      · rw [if_pos hs] at hl
        rw [ih l hl u, List.exists_mem_cons_iff]
        simp [ha, hs]
      · rw [if_neg hs] at hl
        rw [Bool.not_eq_true] at hs
        by_cases he : pyEndsWith href "/" = true
        · rw [if_pos he] at hl
          cases hr : rec (td ++ href) with
          | error e => rw [hr] at hl; cases hl
          | ok sub =>
            rw [hr] at hl
            cases hp : crawl_page td rec rest with
            | error e => rw [hp] at hl; cases hl
            | ok tail =>
              rw [hp] at hl
              cases hl
              rw [List.mem_append, hrec _ _ hr u, ih tail hp u, List.exists_mem_cons_iff]
              simp [ha, hs, he]
        · rw [if_neg he] at hl
          rw [Bool.not_eq_true] at he
          cases hp : crawl_page td rec rest with
          | error e => rw [hp] at hl; cases hl
          | ok tail =>
            rw [hp] at hl
            cases hl
            rw [List.mem_cons, ih tail hp u, List.exists_mem_cons_iff]
            simp [ha, hs, he]

/-- Membership in `crawlFuel`'s result is reachability in fewer than
`fuel` sub-listing steps. -/
theorem crawlFuel_mem (site : Site) (td : String) :
    ∀ (fuel : Nat) (url : String) (l : List String),
      crawlFuel site td fuel url = Except.ok l →
      ∀ u, u ∈ l ↔ ∃ n, n < fuel ∧ LeafReach site td url u n := by
  intro fuel
  induction fuel with
  | zero =>
    intro url l hl u
    cases hl
    simp
  | succ fuel ih =>
    intro url l hl u
    rw [crawl_page_mem td (crawlFuel site td fuel)
      (fun v u2 => ∃ n, n < fuel ∧ LeafReach site td v u2 n)
      (fun v l2 h2 u2 => ih v l2 h2 u2) (site url) l hl u]
    constructor
    · rintro ⟨a, hain, href, hah, hstart, hrest⟩
      rcases hrest with ⟨hend, n, hn, hreach⟩ | ⟨hend, rfl⟩
      · exact ⟨n + 1, by omega, LeafReach.there a href hain hah hstart hend hreach⟩
      · exact ⟨0, by omega, LeafReach.here a href hain hah hstart hend⟩
    · rintro ⟨n, hn, hreach⟩
      cases hreach with
      | here a href hain hah hstart hend =>
        exact ⟨a, hain, href, hah, hstart, Or.inr ⟨hend, rfl⟩⟩
      | there a href hain hah hstart hend htail =>
        exact ⟨a, hain, href, hah, hstart, Or.inl ⟨hend, _, by omega, htail⟩⟩

/-- One page's anchor loop gives the same result when anchors whose
href starts with `..` are removed first (given that the two recursive
calls agree). -/
theorem crawl_page_strip (td : String) (rec rec2 : String → Except Unit (List String))
    (hrec : ∀ v, rec v = rec2 v) :
    ∀ anchors : List Anchor,
      crawl_page td rec anchors = crawl_page td rec2 (anchors.filter keepAnchor) := by
  intro anchors
  induction anchors with
  | nil => rfl
  | cons a rest ih =>
    cases ha : a.href with
    | none =>
      have hk : keepAnchor a = true := by simp [keepAnchor, ha]
      simp only [List.filter_cons, hk, if_true, crawl_page, ha]
    | some href =>
      by_cases hs : pyStartsWith href ".." = true
      · have hk : keepAnchor a = false := by simp [keepAnchor, ha, hs]
        simp only [List.filter_cons, hk, Bool.false_eq_true, if_false, crawl_page, ha,
          hs, if_true]
        exact ih
      · have hk : keepAnchor a = true := by simp [keepAnchor, ha, hs]
        simp only [List.filter_cons, hk, if_true, crawl_page, ha, hs, if_false]
        rw [← hrec (td ++ href), ← ih]

/-- `crawlFuel` never looks at anchors whose href starts with `..`. -/
theorem crawlFuel_strip (site : Site) (td : String) :
    ∀ (fuel : Nat) (url : String),
      crawlFuel site td fuel url = crawlFuel (stripParentAnchors site) td fuel url := by
  intro fuel
  induction fuel with
  | zero => intro url; rfl
  | succ fuel ih =>
    intro url
    exact crawl_page_strip td (crawlFuel site td fuel)
      (crawlFuel (stripParentAnchors site) td fuel) (fun v => ih v) (site url)

/-! ## Claim C4: malformed HTML -/

/-- Claim C4, counterexample: an anchor element without an `href`
attribute is not skipped — `link.get('href')` is `None` and
`None.startswith('..')` raises, so the whole crawl errors instead of
returning a result (were the anchor skipped, the crawl of this
one-anchor page would return `ok []`). -/
theorem crawl_missing_href_crashes :
    crawl_h5ai (fun _ => [⟨none⟩]) "http://host" "http://host/files/" 0 4 =
      Except.error () ∧
    crawl_h5ai (fun _ => [⟨none⟩]) "http://host" "http://host/files/" 0 4 ≠
      Except.ok [] :=
  ⟨rfl, fun h => Except.noConfusion h⟩

/-- Claim C4, amended: a page with zero anchors indeed contributes an
empty result for its branch without error, but an anchor element
missing its `href` attribute makes the crawl raise
(`AttributeError: 'NoneType' object has no attribute 'startswith'`)
rather than being skipped. -/
theorem crawl_zero_anchors_ok_and_missing_href_error (site : Site) (td u0 u1 : String)
    (m : Nat) (rest : Page) (h0 : site u0 = []) (h1 : site u1 = Anchor.mk none :: rest) :
    crawl_h5ai site td u0 0 m = Except.ok [] ∧
    crawl_h5ai site td u1 0 m = Except.error () := by
  constructor
  · show crawl_page td (crawlFuel site td m) (site u0) = Except.ok []
    rw [h0]
    rfl
  · show crawl_page td (crawlFuel site td m) (site u1) = Except.error ()
    rw [h1]
    rfl

/-- Claim C4 (amended), witness: a concrete site with an empty listing
page and a page whose only anchor has no `href`. -/
theorem crawl_zero_anchors_ok_and_missing_href_error_witness :
    crawl_h5ai (fun u => if u = "http://host/empty/" then [] else [⟨none⟩])
      "http://host" "http://host/empty/" 0 3 = Except.ok [] ∧
    crawl_h5ai (fun u => if u = "http://host/empty/" then [] else [⟨none⟩])
      "http://host" "http://host/bad/" 0 3 = Except.error () :=
  crawl_zero_anchors_ok_and_missing_href_error
    (fun u => if u = "http://host/empty/" then [] else [⟨none⟩])
    "http://host" "http://host/empty/" "http://host/bad/" 3 [] (by decide) (by decide)

/-! ## Claim C5: upward-traversal exclusion -/

/-- Claim C5: anchors whose href starts with the parent-directory
marker `..` are ignored at every recursion depth — the crawl computes
exactly the same thing on a site with all such anchors removed, so a
`..`-href is never recursed into and never contributes to the
downloadable set.  In the spec's example scenario (where both the root
listing and the `sub/` listing carry a `..` parent anchor, i.e. the
`sub/..` anchor at depth 1), the crawl at `maxDepth = 1` returns
exactly the three leaves and nothing for any `..` anchor. -/
theorem crawl_ignores_parent_anchors :
    (∀ (site : Site) (td url : String) (recursion max_depth : Nat),
      crawl_h5ai site td url recursion max_depth =
        crawl_h5ai (stripParentAnchors site) td url recursion max_depth) ∧
    crawl_h5ai exampleSite "http://host" "http://host/files/" 0 1 =
      Except.ok ["http://host/files/sub/c.zip", "http://host/files/a.zip",
        "http://host/files/b.zip"] := by
  constructor
  · intro site td url r m
    exact crawlFuel_strip site td (m + 1 - r) url
  · rfl

/-! ## Claim C6: depth truncation -/

/-- Claim C6: the crawl stops at every node whose depth exceeds
`maxDepth` (a call entered above `maxDepth` collects nothing), and a
URL is in the result of `crawl_h5ai site td root 0 maxDepth` exactly
when it is a leaf reachable through at most `maxDepth` sub-listing
steps; consequently, for a listing tree of depth `D`, a leaf that
exists only at depth `D` (every way to reach it takes at least `D`
sub-listing steps) is excluded when crawling with
`maxDepth = D - 1`. -/
theorem crawl_depth_truncation (site : Site) (td root : String) (m : Nat)
    (l : List String) (hok : crawl_h5ai site td root 0 m = Except.ok l) :
    (∀ (url : String) (r : Nat), m < r →
      crawl_h5ai site td url r m = Except.ok []) ∧
    (∀ u, u ∈ l ↔ ∃ n, n ≤ m ∧ LeafReach site td root u n) ∧
    (∀ (D : Nat) (u : String), 0 < D → m = D - 1 →
      (∀ n, LeafReach site td root u n → D ≤ n) → u ∉ l) := by
  have hchar : ∀ u, u ∈ l ↔ ∃ n, n ≤ m ∧ LeafReach site td root u n := by
    intro u
    rw [crawlFuel_mem site td (m + 1 - 0) root l hok u]
    constructor
    · rintro ⟨n, hn, hr⟩; exact ⟨n, by omega, hr⟩
    · rintro ⟨n, hn, hr⟩; exact ⟨n, by omega, hr⟩
  refine ⟨?_, hchar, ?_⟩
  · intro url r hr
    show crawlFuel site td (m + 1 - r) url = Except.ok []
    rw [show m + 1 - r = 0 by omega]
    rfl
  · intro D u hD hm honly hmem
    obtain ⟨n, hn, hr⟩ := (hchar u).mp hmem
    have := honly n hr
    omega

/-- Claim C6, witness: crawling the example site with `maxDepth = 0`
(`D - 1` for its depth `D = 1`); the theorem's characterization shows
the leaf `a.zip` of the root page is reached in `0` steps, and the
depth-1-only leaf `sub/c.zip` is excluded. -/
theorem crawl_depth_truncation_witness :
    (∃ n, n ≤ 0 ∧ LeafReach exampleSite "http://host" "http://host/files/"
      "http://host/files/a.zip" n) ∧
    "http://host/files/sub/c.zip" ∉
      ["http://host/files/a.zip", "http://host/files/b.zip"] :=
  ⟨((crawl_depth_truncation exampleSite "http://host" "http://host/files/" 0
      ["http://host/files/a.zip", "http://host/files/b.zip"] (by rfl)).2.1
      "http://host/files/a.zip").mp (by decide),
    by decide⟩

/-! ## Claim C8: LocalPath derivation -/

/-- Claim C8, counterexample: `download_url_to_path` performs
`url.replace(target_domain, '.')`, which replaces every occurrence of
the target domain, not only the leading prefix.  For the target domain
`http://h` and the URL `http://h/a/http://h.zip`, stripping only the
prefix (and treating the rest, which has no percent-escapes, as a
relative path) would give `./a/http://h.zip`, but the code also
rewrites the later occurrence and yields `./a/..zip`. -/
theorem download_url_to_path_replaces_later_occurrence :
    download_url_to_path "http://h" "http://h/a/http://h.zip" = "./a/..zip" ∧
    download_url_to_path "http://h" "http://h/a/http://h.zip" ≠ "./a/http://h.zip" := by
  constructor
  · rfl
  · decide

/-- Claim C8, amended: for a URL of the form `td ++ r` in which the
target domain `td` does not occur again after the prefix, the derived
LocalPath is the percent-decoded remainder `r` behind `.` (the prefix
replaced by `.`, making it a relative path); if `r` moreover contains
no `%`, the content after the prefix is preserved unchanged.  (When
the domain does occur again it is also replaced — see the
counterexample.) -/
theorem download_url_to_path_prefix_only (td r : String)
    (h1 : td.data ≠ []) (h2 : occursIn td.data r.data = false) :
    download_url_to_path td (td ++ r) = ⟨'.' :: url_decodeChars r.data⟩ ∧
    ((∀ c ∈ r.data, c ≠ '%') → download_url_to_path td (td ++ r) = ⟨'.' :: r.data⟩) := by
  have hrep : replaceAll td.data ['.'] (td ++ r).data = '.' :: r.data := by
    rw [String.data_append, replaceAll_append_pat td.data ['.'] r.data h1,
      replaceAll_of_not_occursIn td.data ['.'] r.data h2]
    rfl
  have hpath : download_url_to_path td (td ++ r) = ⟨url_decodeChars ('.' :: r.data)⟩ := by
    show url_decode (pyReplace (td ++ r) td ".") = _
    unfold pyReplace
    show url_decode ⟨replaceAll td.data ['.'] (td ++ r).data⟩ = _
    rw [hrep]
    rfl
  constructor
  · rw [hpath, url_decodeChars_cons_of_ne '.' r.data (by decide)]
  · intro hnp
    rw [hpath, url_decodeChars_cons_of_ne '.' r.data (by decide),
      show url_decodeChars r.data = r.data from url_decodeAux_of_no_percent _ _ hnp]

/-- Claim C8, witness: the amended statement at the target domain
`http://h` and remainder `/a%41.zip` (one percent-escape, which
decodes to `A`). -/
theorem download_url_to_path_prefix_only_witness :
    download_url_to_path "http://h" ("http://h" ++ "/a%41.zip") = "./aA.zip" := by
  have h :=
    (download_url_to_path_prefix_only "http://h" "/a%41.zip" (by decide) (by decide)).1
  rw [h]
  rfl

/-! ## Claim C9: list-file parsing -/

/-- Claim C9: parsing a list file whose content is
`http://host/a/ 2\nhttp://host/b/\n` with caller-supplied default
depth 5 yields exactly the work items
`[(http://host/a/, 2), (http://host/b/, 5)]`, in that order: a line
with a second field uses that field as the depth, a line with only a
URL uses the default. -/
theorem get_urls_from_file_example :
    get_urls_from_file "http://host/a/ 2\nhttp://host/b/\n" 5 =
      some [("http://host/a/", 2), ("http://host/b/", 5)] := by
  rfl

/-! ## Claim C10: the normalized file-name key is not injective -/

/-- Claim C10: `url_to_file_name` is not injective — a URL and its
`https` counterpart, and a URL differing only by `/` versus `_`,
collide.  Consequently the Response Cache returns for
`https://host/a` the bytes previously stored for `http://host/a`
(with zero network calls, even though the network would serve
different bytes for the two URLs), and two distinct crawl roots write
their completion ledgers to one shared file. -/
theorem url_to_file_name_not_injective :
    (("http://host/a" : String) ≠ "https://host/a" ∧
      url_to_file_name "http://host/a" = url_to_file_name "https://host/a") ∧
    (("http://host/a" : String) ≠ "http://host_a" ∧
      url_to_file_name "http://host/a" = url_to_file_name "http://host_a") ∧
    ((get_source_using_curl (fun v => if v = "http://host/a" then some "AAA" else some "BBB")
        (get_source_using_curl (fun v => if v = "http://host/a" then some "AAA" else some "BBB")
          [] "http://host/a").cache
        "https://host/a").netCalls = 0 ∧
      (get_source_using_curl (fun v => if v = "http://host/a" then some "AAA" else some "BBB")
        (get_source_using_curl (fun v => if v = "http://host/a" then some "AAA" else some "BBB")
          [] "http://host/a").cache
        "https://host/a").html = "AAA" ∧
      (fun v => if v = "http://host/a" then some "AAA" else some "BBB") "https://host/a" =
        some "BBB") ∧
    (dbKey "http://host/a" = dbKey "https://host/a" ∧
      lookup (dbKey "http://host/a")
        (download_complete "https://host/a" "v.zip"
          (download_complete "http://host/a" "u.zip" ⟨[], [], [], []⟩)).db =
        some ["u.zip", "v.zip"]) := by
  refine ⟨⟨by decide, by rfl⟩, ⟨by decide, by rfl⟩, ⟨by rfl, by rfl, by rfl⟩, ⟨by rfl, by rfl⟩⟩

end H5ai
